import Mathlib

/-!
Shallow embedding of `src/config.rs` of NxPKG/BWPlugins: the configuration
loader that parses `config.toml` documents into `Framework` and `Test`
values, resolves the language from the config file's path, and derives
project and test names.

Paths are modelled as lists of components (root to leaf); `FsPath.ancestors`
mirrors Rust's `Path::ancestors` (the path, then each parent, ending with
the empty path) and `file_name` mirrors `Path::file_name` (the last
component, `none` for the empty path).  Rust `unwrap` panics are modelled
by an explicit `panicked` outcome.
-/

set_option autoImplicit false

/-- A file-system path, as its list of components from root to leaf. -/
abbrev FsPath := List String

namespace FsPath

/-- Rust `Path::file_name`: the last component, `none` for the empty path. -/
def file_name (p : FsPath) : Option String :=
  p.getLast?

/-- Rust `Path::parent`: `none` for the empty path, otherwise the path with
its last component removed. -/
def parent (p : FsPath) : Option FsPath :=
  if p = [] then none else some p.dropLast

/-- Fuel-indexed helper for `ancestors`; with fuel at least the path's
length it keeps dropping the last component until the path is empty. -/
def ancestorsAux : Nat → FsPath → List FsPath
  | 0, _ => [[]]
  | n + 1, p => if p = [] then [[]] else p :: ancestorsAux n p.dropLast

/-- Rust `Path::ancestors`: the path itself, then each successive parent,
ending with the empty path. -/
def ancestors (p : FsPath) : List FsPath :=
  ancestorsAux p.length p

/-- Rendering of a path as a string (`Path::to_str` on a valid-UTF-8 path). -/
def render (p : FsPath) : String :=
  String.intercalate "/" p

end FsPath

/-- Rust `str::to_lowercase`, modelled characterwise with `Char.toLower`
(ASCII case folding). -/
def lowercase (s : String) : String :=
  ⟨s.data.map Char.toLower⟩

/-- The error kinds of the toolset used by `config.rs`.
Modelled from the spec: the repository's `error.rs` is not under `src/`;
the spec's §7 lists *MalformedConfig(file_path, underlying_diagnostic)*
(`InvalidConfigError`) and *LanguageNotFound(framework_name, file_path)*
(`LanguageNotFoundError`), with payloads as constructed in `config.rs`.
The underlying toml diagnostic is not modelled. -/
inductive ToolsetError where
  | InvalidConfigError (path : String)
  | LanguageNotFoundError (frameworkName : String) (path : String)
deriving DecidableEq

/-- Result of a Rust function returning `ToolsetResult` that may also panic
on `unwrap`. -/
inductive RustResult (α : Type) where
  | ok (a : α)
  | err (e : ToolsetError)
  | panicked
deriving DecidableEq

/-- The `framework` block of a config file (`struct Framework`). -/
structure Framework where
  name : String
  authors : Option (List String)
  github : Option String
deriving DecidableEq

/-- `Framework::get_name` (the `Named` impl). -/
def Framework.get_name (f : Framework) : String :=
  f.name

/-- A test-implementation block of a config file (`struct Test`); the
`urls` map is modelled as an association list. -/
structure Test where
  name : Option String
  urls : List (String × String)
  approach : String
  classification : String
  orm : Option String
  platform : String
  webserver : String
  os : String
  database_os : Option String
  database : Option String
  versus : String
  tags : Option (List String)
  dockerfile : Option String
deriving DecidableEq

/-- `Test::specify_test_type`: with a selector, keep only the url entries
whose key equals the selector; with no selector, leave the urls unchanged. -/
def Test.specify_test_type (t : Test) (test_type : Option String) : Test :=
  match test_type with
  | some s => { t with urls := t.urls.filter (fun kv => kv.1 = s) }
  | none => t

/-- Outcome of the ancestor walk inside `get_language_by_config_file`:
the loop either finds a language, falls through with `language == None`,
or panics unwrapping the `file_name` of the ancestor after the match. -/
inductive LangOutcome where
  | found (lang : String)
  | notFound
  | panicked
deriving DecidableEq

/-- The `for segment in file.ancestors()` loop of
`get_language_by_config_file`, over the remaining ancestors, with the
`next` flag. -/
def langWalk (fwLower : String) : List FsPath → Bool → LangOutcome
  | [], _ => .notFound
  | seg :: rest, next =>
    if next then
      match seg.file_name with
      | some s => .found s
      | none => .panicked
    else
      match seg.file_name with
      | some s =>
        if lowercase s = fwLower then langWalk fwLower rest true
        else langWalk fwLower rest false
      | none => langWalk fwLower rest false

/-- `get_language_by_config_file`: walk the path's ancestors; once an
ancestor's lowercased file name equals the framework's lowercased name, the
next ancestor's file name is the language (unwrapped: `none` panics); if no
ancestor matches, `LanguageNotFoundError` with the lowercased framework
name and the rendered path. -/
def get_language_by_config_file (framework : Framework) (file : FsPath) :
    RustResult String :=
  match langWalk (lowercase framework.get_name) (FsPath.ancestors file) false with
  | .found s => .ok s
  | .notFound =>
      .err (.LanguageNotFoundError (lowercase framework.get_name) file.render)
  | .panicked => .panicked

/-- `get_project_name_by_config_file`: the file name of the path's parent,
both obtained with `unwrap` (so a missing parent or a parent without a
file name panics). -/
def get_project_name_by_config_file (path_buf : FsPath) : RustResult String :=
  match path_buf.parent with
  | none => .panicked
  | some parent_dir =>
    match parent_dir.file_name with
    | none => .panicked
    | some s => .ok s

/-- A top-level block of a `config.toml` document as a semi-structured
record: every field that `Framework` or `Test` could read, each optional
(absent or present in the document).  Unknown extra keys are ignored by
serde and are not modelled. -/
structure RawBlock where
  name : Option String
  authors : Option (List String)
  github : Option String
  urls : Option (List (String × String))
  approach : Option String
  classification : Option String
  orm : Option String
  platform : Option String
  webserver : Option String
  os : Option String
  database_os : Option String
  database : Option String
  versus : Option String
  tags : Option (List String)
  dockerfile : Option String
deriving DecidableEq

/-- Serde deserialization of a block as a `Test`: the fields `urls`,
`approach`, `classification`, `platform`, `webserver`, `os` and `versus`
are required, the rest are `Option`s. -/
def deserializeTest (b : RawBlock) : Option Test :=
  match b.urls, b.approach, b.classification, b.platform, b.webserver,
      b.os, b.versus with
  | some urls, some approach, some classification, some platform,
      some webserver, some os, some versus =>
    some { name := b.name, urls := urls, approach := approach,
           classification := classification, orm := b.orm,
           platform := platform, webserver := webserver, os := os,
           database_os := b.database_os, database := b.database,
           versus := versus, tags := b.tags, dockerfile := b.dockerfile }
  | _, _, _, _, _, _, _ => none

/-- Serde deserialization of a block as a `Framework`: the field `name` is
required, `authors` and `github` are `Option`s. -/
def deserializeFramework (b : RawBlock) : Option Framework :=
  match b.name with
  | some name => some { name := name, authors := b.authors, github := b.github }
  | none => none

/-- The typed shape of a whole config document (`struct Config`): a
`framework` block and a `main` test block, both required. -/
structure Config where
  framework : Framework
  main : Test
deriving DecidableEq

/-- Lookup of a top-level block by key (TOML forbids duplicate keys). -/
def findBlock (key : String) : List (String × RawBlock) → Option RawBlock
  | [] => none
  | (k, b) :: rest => if k = key then some b else findBlock key rest

/-- Serde deserialization of a whole document as a `Config`: requires a
`framework` block deserializable as `Framework` and a `main` block
deserializable as `Test`; other top-level blocks are ignored. -/
def deserializeConfig (doc : List (String × RawBlock)) : Option Config :=
  (findBlock "framework" doc).bind fun fb =>
    (deserializeFramework fb).bind fun framework =>
      (findBlock "main" doc).bind fun mb =>
        (deserializeTest mb).map fun main =>
          { framework := framework, main := main }

/-- `parse_config`: deserialize the document as `Config`, or fail with
`InvalidConfigError` carrying the file path. -/
def parse_config (path : String) (doc : List (String × RawBlock)) :
    Except ToolsetError Config :=
  match deserializeConfig doc with
  | some config => .ok config
  | none => .error (.InvalidConfigError path)

/-- `get_framework_by_config_file`: parse the document and return only the
framework block. -/
def get_framework_by_config_file (path : String)
    (doc : List (String × RawBlock)) : Except ToolsetError Framework :=
  match parse_config path doc with
  | .ok config => .ok config.framework
  | .error e => .error e

/-- The test name built in the loop of
`get_test_implementations_by_config_file`: the lowercased framework name,
and for keys other than `"main"` a `-` and the key appended. -/
def derive_test_name (frameworkName key : String) : String :=
  if key = "main" then lowercase frameworkName
  else lowercase frameworkName ++ "-" ++ key

/-- The `for key in table.keys()` loop of
`get_test_implementations_by_config_file`: every top-level block other
than `framework` is deserialized as a `Test` and given the derived name; a
block that fails to deserialize aborts with `InvalidConfigError`.  Key
enumeration order is modelled as document order. -/
def buildTests (frameworkName path : String) :
    List (String × RawBlock) → Except ToolsetError (List Test)
  | [] => .ok []
  | (key, b) :: rest =>
    if key = "framework" then buildTests frameworkName path rest
    else
      match deserializeTest b with
      | some test =>
        match buildTests frameworkName path rest with
        | .ok tests =>
          .ok ({ test with name := some (derive_test_name frameworkName key) }
            :: tests)
        | .error e => .error e
      | none => .error (.InvalidConfigError path)

/-- `get_test_implementations_by_config_file`: parse the document as
`Config` (for the framework name), then build one named `Test` from every
top-level block other than `framework`. -/
def get_test_implementations_by_config_file (path : String)
    (doc : List (String × RawBlock)) : Except ToolsetError (List Test) :=
  match parse_config path doc with
  | .ok config => buildTests config.framework.name path doc
  | .error e => .error e


/-- Example framework block: named "Gemini", no authors, no repository. -/
def fwBlockEx : RawBlock :=
  { name := some "Gemini", authors := none, github := none, urls := none,
    approach := none, classification := none, orm := none, platform := none,
    webserver := none, os := none, database_os := none, database := none,
    versus := none, tags := none, dockerfile := none }

/-- Example "main" test block; it carries a verbatim name field, which the
loader must ignore. -/
def mainBlockEx : RawBlock :=
  { name := some "verbatim", authors := none, github := none,
    urls := some [("json", "/json"), ("plaintext", "/plaintext")],
    approach := some "Realistic", classification := some "Fullstack",
    orm := none, platform := some "Servlet", webserver := some "Resin",
    os := some "Linux", database_os := none, database := none,
    versus := some "servlet", tags := none, dockerfile := none }

/-- Example secondary test block keyed "cached", with no name field. -/
def cachedBlockEx : RawBlock :=
  { mainBlockEx with name := none, urls := some [("cached_query", "/cached")] }

/-- Example malformed test block: the required `urls` field is missing. -/
def badBlockEx : RawBlock :=
  { mainBlockEx with urls := none }

/-- Example valid document: framework "Gemini" with a main and a cached
test block. -/
def docEx : List (String × RawBlock) :=
  [("framework", fwBlockEx), ("main", mainBlockEx), ("cached", cachedBlockEx)]

/-- Example document whose "cached" block is missing `urls`. -/
def docBadEx : List (String × RawBlock) :=
  [("framework", fwBlockEx), ("main", mainBlockEx), ("cached", badBlockEx)]

/-- Example document with a well-formed framework block and no "main". -/
def docNoMainEx : List (String × RawBlock) :=
  [("framework", fwBlockEx)]

/-- The `Test` deserialized from `mainBlockEx`, before renaming. -/
def mainRawTestEx : Test :=
  { name := some "verbatim",
    urls := [("json", "/json"), ("plaintext", "/plaintext")],
    approach := "Realistic", classification := "Fullstack", orm := none,
    platform := "Servlet", webserver := "Resin", os := "Linux",
    database_os := none, database := none, versus := "servlet",
    tags := none, dockerfile := none }

/-- The `Test` deserialized from `cachedBlockEx`, before renaming. -/
def cachedRawTestEx : Test :=
  { mainRawTestEx with name := none, urls := [("cached_query", "/cached")] }

/-- The named test the loader builds from the "main" block of `docEx`. -/
def mainTestEx : Test :=
  { mainRawTestEx with name := some "gemini" }

/-- The named test the loader builds from the "cached" block of `docEx`. -/
def cachedTestEx : Test :=
  { cachedRawTestEx with name := some "gemini-cached" }

namespace FsPath

theorem ancestors_nil : ancestors [] = [[]] := rfl

theorem ancestors_ne_nil (p : FsPath) (h : p ≠ []) :
    ancestors p = p :: ancestors p.dropLast := by
  obtain ⟨k, hk⟩ : ∃ k, p.length = k + 1 :=
    ⟨p.length - 1, by have := List.length_pos.mpr h; omega⟩
  have hdl : p.dropLast.length = k := by
    rw [List.length_dropLast, hk]
    omega
  simp only [ancestors, hk, hdl, ancestorsAux, if_neg h]

theorem ancestors_concat (p : FsPath) (x : String) :
    ancestors (p ++ [x]) = (p ++ [x]) :: ancestors p := by
  rw [ancestors_ne_nil (p ++ [x]) (by simp)]
  rw [List.dropLast_concat]

theorem file_name_concat (p : FsPath) (x : String) :
    file_name (p ++ [x]) = some x :=
  List.getLast?_concat p

end FsPath

theorem langWalk_ancestors_true (fwLower : String) (p : FsPath) :
    langWalk fwLower (FsPath.ancestors p) true =
      match p.file_name with
      | some s => LangOutcome.found s
      | none => LangOutcome.panicked := by
  by_cases h : p = []
  · subst h
    rfl
  · rw [FsPath.ancestors_ne_nil p h]
    rfl

theorem langWalk_concat_match (fwLower : String) (p : FsPath) (x : String)
    (hx : lowercase x = fwLower) :
    langWalk fwLower (FsPath.ancestors (p ++ [x])) false =
      langWalk fwLower (FsPath.ancestors p) true := by
  rw [FsPath.ancestors_concat]
  simp [langWalk, FsPath.file_name_concat, hx]

theorem langWalk_concat_nomatch (fwLower : String) (p : FsPath) (x : String)
    (hx : lowercase x ≠ fwLower) :
    langWalk fwLower (FsPath.ancestors (p ++ [x])) false =
      langWalk fwLower (FsPath.ancestors p) false := by
  rw [FsPath.ancestors_concat]
  simp [langWalk, FsPath.file_name_concat, hx]

theorem langWalk_nomatch (fwLower : String) (p : FsPath)
    (h : ∀ x ∈ p, lowercase x ≠ fwLower) :
    langWalk fwLower (FsPath.ancestors p) false = .notFound := by
  induction p using List.reverseRecOn with
  | nil => rfl
  | append_singleton q x ih =>
      rw [langWalk_concat_nomatch fwLower q x (h x (by simp))]
      exact ih (fun y hy => h y (by simp [hy]))

theorem langWalk_first_match (fwLower : String) (a : FsPath) (L M : String) :
    ∀ b : List String, lowercase M = fwLower →
      (∀ x ∈ b, lowercase x ≠ fwLower) →
      langWalk fwLower (FsPath.ancestors (a ++ L :: M :: b)) false =
        .found L := by
  intro b
  induction b using List.reverseRecOn with
  | nil =>
      intro hM _
      have h1 : a ++ L :: M :: ([] : List String) = (a ++ [L]) ++ [M] := by simp
      rw [h1, langWalk_concat_match fwLower (a ++ [L]) M hM,
        langWalk_ancestors_true, FsPath.file_name_concat]
  | append_singleton q x ih =>
      intro hM hb
      have h1 : a ++ L :: M :: (q ++ [x]) = (a ++ L :: M :: q) ++ [x] := by
        simp
      rw [h1, langWalk_concat_nomatch fwLower _ x (hb x (by simp))]
      exact ih hM (fun y hy => hb y (by simp [hy]))

theorem langWalk_match_topmost (fwLower : String) (M : String) :
    ∀ b : List String, lowercase M = fwLower →
      (∀ x ∈ b, lowercase x ≠ fwLower) →
      langWalk fwLower (FsPath.ancestors (M :: b)) false = .panicked := by
  intro b
  induction b using List.reverseRecOn with
  | nil =>
      intro hM _
      have h1 : M :: ([] : List String) = [] ++ [M] := by simp
      rw [h1, langWalk_concat_match fwLower [] M hM, langWalk_ancestors_true]
      rfl
  | append_singleton q x ih =>
      intro hM hb
      have h1 : M :: (q ++ [x]) = (M :: q) ++ [x] := by simp
      rw [h1, langWalk_concat_nomatch fwLower _ x (hb x (by simp))]
      exact ih hM (fun y hy => hb y (by simp [hy]))

/-- C1: `get_language_by_config_file` walks the path's ancestor components
from leaf toward root and, at the first component whose lowercased name
equals the framework's lowercased name, returns the name of the next
ancestor encountered in that walk (the component just above it in the
path) as the language. -/
theorem get_language_returns_next_ancestor (framework : Framework)
    (a : FsPath) (L M : String) (b : List String)
    (hM : lowercase M = lowercase framework.get_name)
    (hb : ∀ x ∈ b, lowercase x ≠ lowercase framework.get_name) :
    get_language_by_config_file framework (a ++ L :: M :: b) =
      RustResult.ok L := by
  unfold get_language_by_config_file
  rw [langWalk_first_match (lowercase framework.get_name) a L M b hM hb]

/-- C1 witness: for the path `frameworks/Java/gemini/config.toml` and a
framework named "gemini", the language is "Java". -/
theorem get_language_returns_next_ancestor_witness :
    get_language_by_config_file ⟨"gemini", none, none⟩
        (["frameworks"] ++ "Java" :: "gemini" :: ["config.toml"]) =
      RustResult.ok "Java" :=
  get_language_returns_next_ancestor ⟨"gemini", none, none⟩ ["frameworks"]
    "Java" "gemini" ["config.toml"] (by decide) (by decide)

/-- C10: whenever the ancestor component matching the framework's name
case-insensitively is the topmost named component of the path, the next
ancestor in the walk has no file name and `get_language_by_config_file`
panics unwrapping it, instead of returning a language or a
`LanguageNotFoundError`. -/
theorem get_language_topmost_match_panics (framework : Framework)
    (M : String) (b : List String)
    (hM : lowercase M = lowercase framework.get_name)
    (hb : ∀ x ∈ b, lowercase x ≠ lowercase framework.get_name) :
    get_language_by_config_file framework (M :: b) = RustResult.panicked := by
  unfold get_language_by_config_file
  rw [langWalk_match_topmost (lowercase framework.get_name) M b hM hb]

/-- C10 witness: for the path `gemini/config.toml` and a framework named
"gemini", the walk panics. -/
theorem get_language_topmost_match_panics_witness :
    get_language_by_config_file ⟨"gemini", none, none⟩
        ("gemini" :: ["config.toml"]) = RustResult.panicked :=
  get_language_topmost_match_panics ⟨"gemini", none, none⟩ "gemini"
    ["config.toml"] (by decide) (by decide)

/-- C6 counterexample: the `LanguageNotFoundError` does not carry the
framework's name: for a framework named "Gemini" and a path with no
matching ancestor it carries the lowercased name "gemini", which differs
from "Gemini". -/
theorem get_language_not_found_counterexample :
    get_language_by_config_file ⟨"Gemini", none, none⟩ ["x", "config.toml"] =
      RustResult.err (.LanguageNotFoundError "gemini" "x/config.toml") ∧
    "gemini" ≠ "Gemini" := by
  constructor
  · decide
  · decide

/-- C6 (amended): whenever no ancestor component of the path matches the
framework's name case-insensitively, `get_language_by_config_file` fails
with a `LanguageNotFoundError` carrying the framework's lowercased name
and the file path. -/
theorem get_language_not_found (framework : Framework) (file : FsPath)
    (h : ∀ x ∈ file, lowercase x ≠ lowercase framework.get_name) :
    get_language_by_config_file framework file =
      RustResult.err
        (.LanguageNotFoundError (lowercase framework.get_name) file.render) := by
  unfold get_language_by_config_file
  rw [langWalk_nomatch (lowercase framework.get_name) file h]

/-- C6 witness: a framework named "Gemini" and the path `y/cfg.toml`. -/
theorem get_language_not_found_witness :
    get_language_by_config_file ⟨"Gemini", none, none⟩ ["y", "cfg.toml"] =
      RustResult.err
        (.LanguageNotFoundError
          (lowercase (Framework.get_name ⟨"Gemini", none, none⟩))
          (FsPath.render ["y", "cfg.toml"])) :=
  get_language_not_found ⟨"Gemini", none, none⟩ ["y", "cfg.toml"] (by decide)

/-- C8 counterexample: on the single-component path `config.toml` (whose
parent is the empty path, which has no file name),
`get_project_name_by_config_file` panics on `unwrap` instead of failing
with an error. -/
theorem get_project_name_counterexample :
    get_project_name_by_config_file ["config.toml"] = RustResult.panicked ∧
    ∀ e : ToolsetError,
      get_project_name_by_config_file ["config.toml"] ≠ RustResult.err e := by
  refine ⟨by decide, fun e h => ?_⟩
  exact RustResult.noConfusion h

/-- C8 (amended): `get_project_name_by_config_file` returns the name of
the parent directory of the given file; when the path has no parent or the
parent has no file name it panics on `unwrap` rather than returning an
error. -/
theorem get_project_name_spec :
    (∀ (a : FsPath) (d f : String),
      get_project_name_by_config_file (a ++ [d, f]) = RustResult.ok d) ∧
    get_project_name_by_config_file [] = RustResult.panicked ∧
    ∀ x : String, get_project_name_by_config_file [x] = RustResult.panicked := by
  refine ⟨?_, rfl, fun x => ?_⟩
  · intro a d f
    unfold get_project_name_by_config_file FsPath.parent
    rw [if_neg (by simp : a ++ [d, f] ≠ [])]
    have hdl : (a ++ [d, f]).dropLast = a ++ [d] := by
      have h2 : a ++ [d, f] = (a ++ [d]) ++ [f] := by simp
      rw [h2, List.dropLast_concat]
    rw [hdl]
    show (match (a ++ [d]).file_name with
      | none => RustResult.panicked
      | some s => RustResult.ok s) = RustResult.ok d
    rw [FsPath.file_name_concat]
  · unfold get_project_name_by_config_file FsPath.parent
    rw [if_neg (by simp : ([x] : FsPath) ≠ [])]
    rfl

theorem parse_config_ok_iff (path : String) (doc : List (String × RawBlock))
    (cfg : Config) :
    parse_config path doc = .ok cfg ↔ deserializeConfig doc = some cfg := by
  unfold parse_config
  cases h : deserializeConfig doc with
  | none => simp
  | some c => simp

theorem parse_config_error_shape (path : String)
    (doc : List (String × RawBlock)) (e : ToolsetError)
    (h : parse_config path doc = .error e) :
    e = .InvalidConfigError path := by
  unfold parse_config at h
  cases hc : deserializeConfig doc with
  | none =>
      rw [hc] at h
      injection h with h'
      exact h'.symm
  | some c =>
      rw [hc] at h
      exact Except.noConfusion h

theorem deserializeConfig_some_inv (doc : List (String × RawBlock))
    (cfg : Config) (hc : deserializeConfig doc = some cfg) :
    ∃ fb mb, findBlock "framework" doc = some fb ∧
      deserializeFramework fb = some cfg.framework ∧
      findBlock "main" doc = some mb ∧ deserializeTest mb = some cfg.main := by
  unfold deserializeConfig at hc
  cases hfb : findBlock "framework" doc with
  | none => rw [hfb] at hc; exact Option.noConfusion hc
  | some fb =>
    rw [hfb] at hc
    simp only [Option.some_bind] at hc
    cases hf : deserializeFramework fb with
    | none => rw [hf] at hc; exact Option.noConfusion hc
    | some framework =>
      rw [hf] at hc
      simp only [Option.some_bind] at hc
      cases hm : findBlock "main" doc with
      | none => rw [hm] at hc; exact Option.noConfusion hc
      | some mb =>
        rw [hm] at hc
        simp only [Option.some_bind] at hc
        cases ht : deserializeTest mb with
        | none => rw [ht] at hc; exact Option.noConfusion hc
        | some main =>
          rw [ht] at hc
          simp only [Option.map_some'] at hc
          injection hc with hc'
          subst hc'
          exact ⟨fb, mb, rfl, hf, rfl, ht⟩

theorem deserializeFramework_name (fb : RawBlock) (N : String)
    (hN : fb.name = some N) :
    deserializeFramework fb = some ⟨N, fb.authors, fb.github⟩ := by
  unfold deserializeFramework
  rw [hN]

theorem deserializeConfig_framework_name (doc : List (String × RawBlock))
    (cfg : Config) (fb : RawBlock) (N : String)
    (hfb : findBlock "framework" doc = some fb) (hN : fb.name = some N)
    (hc : deserializeConfig doc = some cfg) : cfg.framework.name = N := by
  obtain ⟨fb', mb, hfb', hf, _, _⟩ := deserializeConfig_some_inv doc cfg hc
  rw [hfb] at hfb'
  injection hfb' with hfb''
  subst hfb''
  rw [deserializeFramework_name fb N hN] at hf
  injection hf with hf'
  rw [← hf']

theorem buildTests_ok_eq (N path : String) (blocks : List (String × RawBlock))
    (ts : List Test) (h : buildTests N path blocks = .ok ts) :
    ts = blocks.filterMap (fun kb =>
      if kb.1 = "framework" then none
      else (deserializeTest kb.2).map
        (fun t => { t with name := some (derive_test_name N kb.1) })) := by
  induction blocks generalizing ts with
  | nil =>
      simp only [buildTests] at h
      injection h with h'
      rw [← h']
      rfl
  | cons kb rest ih =>
      obtain ⟨key, b⟩ := kb
      by_cases hk : key = "framework"
      · simp only [buildTests, hk, if_pos] at h
        simp only [List.filterMap_cons, hk, if_pos]
        exact ih ts h
      · cases hd : deserializeTest b with
        | none =>
            simp only [buildTests, hd, if_neg hk] at h
            exact Except.noConfusion h
        | some t =>
            cases hb : buildTests N path rest with
            | error e =>
                simp only [buildTests, hd, hb, if_neg hk] at h
                exact Except.noConfusion h
            | ok ts' =>
                simp only [buildTests, hd, hb, if_neg hk] at h
                injection h with h'
                rw [← h']
                simp only [List.filterMap_cons, hd, if_neg hk,
                  Option.map_some']
                rw [ih ts' hb]

theorem buildTests_error_of_bad_block (N path : String)
    (blocks : List (String × RawBlock))
    (hbad : ∃ kb ∈ blocks, kb.1 ≠ "framework" ∧ deserializeTest kb.2 = none) :
    buildTests N path blocks = .error (.InvalidConfigError path) := by
  induction blocks with
  | nil =>
      obtain ⟨kb, hmem, _⟩ := hbad
      exact absurd hmem (List.not_mem_nil kb)
  | cons hd rest ih =>
      obtain ⟨kb, hmem, hne, hnone⟩ := hbad
      obtain ⟨key, b⟩ := hd
      by_cases hk : key = "framework"
      · simp only [buildTests, hk, if_pos]
        apply ih
        refine ⟨kb, ?_, hne, hnone⟩
        rcases List.mem_cons.mp hmem with he | hr
        · exact absurd (by rw [he, hk]) hne
        · exact hr
      · cases hd2 : deserializeTest b with
        | none => simp only [buildTests, hd2, if_neg hk]
        | some t =>
            have hkbrest : kb ∈ rest := by
              rcases List.mem_cons.mp hmem with he | hr
              · exfalso
                rw [he] at hnone
                rw [hd2] at hnone
                exact Option.noConfusion hnone
              · exact hr
            simp only [buildTests, hd2, if_neg hk]
            rw [ih ⟨kb, hkbrest, hne, hnone⟩]

/-- C2: for every valid document whose framework block has name `N`,
`get_test_implementations_by_config_file` names the test built from the
block keyed `"main"` exactly `N` lowercased, and the test built from any
other block keyed `k` exactly `N` lowercased followed by `"-"` and `k`. -/
theorem get_test_name_rule (path : String) (doc : List (String × RawBlock))
    (N : String) (fb : RawBlock) (ts : List Test)
    (hfb : findBlock "framework" doc = some fb)
    (hN : fb.name = some N)
    (ht : get_test_implementations_by_config_file path doc = .ok ts) :
    ∀ key b t, (key, b) ∈ doc → key ≠ "framework" →
      deserializeTest b = some t →
      { t with name := some (if key = "main" then lowercase N
          else lowercase N ++ "-" ++ key) } ∈ ts := by
  intro key b t hmem hk hd
  cases hp : parse_config path doc with
  | error e =>
      simp only [get_test_implementations_by_config_file, hp] at ht
      exact Except.noConfusion ht
  | ok cfg =>
      simp only [get_test_implementations_by_config_file, hp] at ht
      have hcfg : deserializeConfig doc = some cfg :=
        (parse_config_ok_iff path doc cfg).mp hp
      have hname : cfg.framework.name = N :=
        deserializeConfig_framework_name doc cfg fb N hfb hN hcfg
      rw [buildTests_ok_eq cfg.framework.name path doc ts ht]
      apply List.mem_filterMap.mpr
      refine ⟨(key, b), hmem, ?_⟩
      simp only [if_neg hk, hd, Option.map_some', hname, derive_test_name]

/-- C2 witness: in a document whose framework block is named "Gemini",
with test blocks keyed "main" and "cached", the "main" block yields a test
named "gemini". -/
theorem get_test_name_rule_witness :
    { mainRawTestEx with
        name := some (if "main" = "main" then lowercase "Gemini"
          else lowercase "Gemini" ++ "-" ++ "main") } ∈
      [mainTestEx, cachedTestEx] :=
  get_test_name_rule "cfg" docEx "Gemini" fwBlockEx [mainTestEx, cachedTestEx]
    (by rfl) (by rfl) (by rfl) "main" mainBlockEx mainRawTestEx
    (by decide) (by decide) (by rfl)

/-- C3: whenever some top-level block other than `framework` fails to
deserialize as a `Test`, `get_test_implementations_by_config_file` returns
an `InvalidConfigError` carrying the file's path; no list is returned. -/
theorem get_tests_malformed_config (path : String)
    (doc : List (String × RawBlock))
    (hbad : ∃ kb ∈ doc, kb.1 ≠ "framework" ∧ deserializeTest kb.2 = none) :
    get_test_implementations_by_config_file path doc =
      .error (.InvalidConfigError path) := by
  cases hp : parse_config path doc with
  | error e =>
      have he := parse_config_error_shape path doc e hp
      simp only [get_test_implementations_by_config_file, hp, he]
  | ok cfg =>
      simp only [get_test_implementations_by_config_file, hp]
      exact buildTests_error_of_bad_block cfg.framework.name path doc hbad

/-- C3 witness: a document whose "cached" block is missing the required
`urls` field makes the call fail with `InvalidConfigError`. -/
theorem get_tests_malformed_config_witness :
    get_test_implementations_by_config_file "cfg2" docBadEx =
      .error (.InvalidConfigError "cfg2") :=
  get_tests_malformed_config "cfg2" docBadEx
    ⟨("cached", badBlockEx), by decide, by decide, by rfl⟩

/-- C4: every `Test` in the list returned by
`get_test_implementations_by_config_file` has its name field set, equal to
the name derived from the framework name and the block key, regardless of
any name field present verbatim in the block. -/
theorem get_test_names_derived (path : String)
    (doc : List (String × RawBlock)) (N : String) (fb : RawBlock)
    (ts : List Test)
    (hfb : findBlock "framework" doc = some fb)
    (hN : fb.name = some N)
    (ht : get_test_implementations_by_config_file path doc = .ok ts) :
    ∀ t ∈ ts, t.name.isSome = true ∧
      ∃ key b t0, (key, b) ∈ doc ∧ key ≠ "framework" ∧
        deserializeTest b = some t0 ∧
        t = { t0 with name := some (if key = "main" then lowercase N
            else lowercase N ++ "-" ++ key) } := by
  intro t hmem
  cases hp : parse_config path doc with
  | error e =>
      simp only [get_test_implementations_by_config_file, hp] at ht
      exact Except.noConfusion ht
  | ok cfg =>
      simp only [get_test_implementations_by_config_file, hp] at ht
      have hcfg : deserializeConfig doc = some cfg :=
        (parse_config_ok_iff path doc cfg).mp hp
      have hname : cfg.framework.name = N :=
        deserializeConfig_framework_name doc cfg fb N hfb hN hcfg
      rw [buildTests_ok_eq cfg.framework.name path doc ts ht] at hmem
      obtain ⟨⟨key, b⟩, hkb, hf⟩ := List.mem_filterMap.mp hmem
      by_cases hk : key = "framework"
      · simp [hk] at hf
      · simp only [if_neg hk] at hf
        cases hd : deserializeTest b with
        | none =>
            rw [hd] at hf
            exact Option.noConfusion hf
        | some t0 =>
            rw [hd] at hf
            simp only [Option.map_some'] at hf
            injection hf with hf'
            refine ⟨?_, key, b, t0, hkb, hk, hd, ?_⟩
            · rw [← hf']
              rfl
            · rw [← hf']
              simp only [hname, derive_test_name]

/-- C4 witness: the "cached" block of the example document carries no name
of its own, and the returned test is named "gemini-cached". -/
theorem get_test_names_derived_witness :
    cachedTestEx.name.isSome = true ∧
    ∃ key b t0, (key, b) ∈ docEx ∧ key ≠ "framework" ∧
      deserializeTest b = some t0 ∧
      cachedTestEx = { t0 with name := some (if key = "main"
          then lowercase "Gemini" else lowercase "Gemini" ++ "-" ++ key) } :=
  get_test_names_derived "cfg" docEx "Gemini" fwBlockEx
    [mainTestEx, cachedTestEx] (by rfl) (by rfl) (by rfl) cachedTestEx
    (by decide)

/-- C5: for every valid document whose framework block has name `N`,
`get_framework_by_config_file` returns a `Framework` whose name equals `N`
exactly, so its lowercased name equals `N` lowercased. -/
theorem get_framework_name_exact (path : String)
    (doc : List (String × RawBlock)) (N : String) (fb : RawBlock)
    (fw : Framework)
    (hfb : findBlock "framework" doc = some fb)
    (hN : fb.name = some N)
    (hf : get_framework_by_config_file path doc = .ok fw) :
    fw.name = N ∧ lowercase fw.name = lowercase N := by
  cases hp : parse_config path doc with
  | error e =>
      simp only [get_framework_by_config_file, hp] at hf
      exact Except.noConfusion hf
  | ok cfg =>
      simp only [get_framework_by_config_file, hp] at hf
      injection hf with hf'
      have hcfg : deserializeConfig doc = some cfg :=
        (parse_config_ok_iff path doc cfg).mp hp
      have hname : cfg.framework.name = N :=
        deserializeConfig_framework_name doc cfg fb N hfb hN hcfg
      rw [← hf']
      exact ⟨hname, by rw [hname]⟩

/-- C5 witness: the example document's framework block is named "Gemini"
and the returned `Framework` is named "Gemini" verbatim. -/
theorem get_framework_name_exact_witness :
    Framework.name ⟨"Gemini", none, none⟩ = "Gemini" ∧
    lowercase (Framework.name ⟨"Gemini", none, none⟩) = lowercase "Gemini" :=
  get_framework_name_exact "cfg" docEx "Gemini" fwBlockEx
    ⟨"Gemini", none, none⟩ (by rfl) (by rfl) (by rfl)

/-- C9: when the framework block is well-formed but the top-level "main"
block is absent or fails to deserialize as a `Test`,
`get_framework_by_config_file` fails with `InvalidConfigError`, because
the typed document shape requires both a framework and a main block. -/
theorem get_framework_missing_main (path : String)
    (doc : List (String × RawBlock)) (fb : RawBlock) (f : Framework)
    (hfb : findBlock "framework" doc = some fb)
    (hf : deserializeFramework fb = some f)
    (hmain : findBlock "main" doc = none ∨
      ∃ mb, findBlock "main" doc = some mb ∧ deserializeTest mb = none) :
    get_framework_by_config_file path doc =
      .error (.InvalidConfigError path) := by
  have hnone : deserializeConfig doc = none := by
    unfold deserializeConfig
    rw [hfb]
    simp only [Option.some_bind]
    rw [hf]
    simp only [Option.some_bind]
    rcases hmain with hm | ⟨mb, hm, htm⟩
    · rw [hm]
      rfl
    · rw [hm]
      simp only [Option.some_bind]
      rw [htm]
      rfl
  unfold get_framework_by_config_file parse_config
  rw [hnone]

/-- C9 witness: a document with only a well-formed framework block and no
"main" block fails with `InvalidConfigError`. -/
theorem get_framework_missing_main_witness :
    get_framework_by_config_file "cfg3" docNoMainEx =
      .error (.InvalidConfigError "cfg3") :=
  get_framework_missing_main "cfg3" docNoMainEx fwBlockEx
    ⟨"Gemini", none, none⟩ (by rfl) (by rfl) (Or.inl (by rfl))

/-- C7: `Test.specify_test_type` with a supplied selector narrows the urls
mapping to only the entries whose key equals the selector; with no
selector it leaves the urls mapping unchanged. -/
theorem specify_test_type_spec (t : Test) (s : String) :
    (∀ k v, (k, v) ∈ (t.specify_test_type (some s)).urls ↔
      ((k, v) ∈ t.urls ∧ k = s)) ∧
    t.specify_test_type none = t := by
  constructor
  · intro k v
    simp [Test.specify_test_type, List.mem_filter]
  · rfl
